import Mathlib

/-!
# Verification of `delphi_dsew_community_profile/pull.py`

Shallow embedding of the report parser in
`src/dsew_community_profile/delphi_dsew_community_profile/pull.py`.

Modelling conventions:
* Python strings are `List Char`; spreadsheet cells that may be non-strings
  (pandas `NaN`) are `Option (List Char)`.
* Python `datetime.date` is the `Date` structure below; construction goes
  through `mkValidDate`, which enforces the same validity constraints as
  `datetime` (years 1..9999, month lengths, leap years).
* Code that can raise (`assert`, `KeyError`, `IndexError`, `ValueError`)
  returns `Option _` or `Except (List Char) _`.
* The three regular expressions of the source (`RE_DATE_FROM_HEADER`,
  `RE_COLUMN_FROM_HEADER`, `RE_DATE_FROM_FILENAME`) are modelled by
  executable backtracking matchers that follow Python `re` semantics for
  these fixed patterns: greedy `.*`, `[A-Za-z]*`, `[0-9]{1,2}` and optional
  groups with ordered backtracking (longest alternative first), `.` not
  matching a newline, and `findall` scanning candidate start positions from
  the left.  Capture groups that do not participate are the empty string,
  exactly as `re.findall` reports them.
-/

/-! ## Character classes and Python string helpers -/

/-- `[A-Za-z]` of the source regexes. -/
def isAlphaCh (c : Char) : Bool := ('A' ≤ c && c ≤ 'Z') || ('a' ≤ c && c ≤ 'z')

/-- `[0-9]` of the source regexes. -/
def isDigitCh (c : Char) : Bool := '0' ≤ c && c ≤ '9'

/-- `.` in a Python regex without `re.DOTALL`: any character but a newline. -/
def notNl (c : Char) : Bool := c ≠ '\n'

def digitVal (c : Char) : Nat := c.toNat - '0'.toNat

/-- ASCII lowering, the fragment of Python `str.lower` the headers use. -/
def asciiLower (c : Char) : Char :=
  if 'A' ≤ c && c ≤ 'Z' then Char.ofNat (c.toNat + 32) else c

/-- Python `str.lower()`. -/
def toLowerStr (s : List Char) : List Char := s.map asciiLower

/-- Python `str.find`: index of the first occurrence, `-1` if absent. -/
def strFindAux (needle : List Char) : List Char → Nat → Int
  | [], i => if needle = [] then (i : Int) else -1
  | c :: t, i => if needle.isPrefixOf (c :: t) then (i : Int) else strFindAux needle t (i + 1)

def strFind (needle hay : List Char) : Int := strFindAux needle hay 0

/-- Substring containment, stated the way the spec words it. -/
def containsSubstr (needle hay : List Char) : Prop := ∃ a b, hay = a ++ needle ++ b

/-! ## Dates (`datetime.date`) -/

structure Date where
  year : Int
  month : Nat
  day : Nat
deriving DecidableEq, Repr

def isLeapYear (y : Int) : Bool := y % 4 == 0 && (y % 100 != 0 || y % 400 == 0)

def daysInMonth (y : Int) (m : Nat) : Nat :=
  if m = 2 then (if isLeapYear y then 29 else 28)
  else if m = 4 ∨ m = 6 ∨ m = 9 ∨ m = 11 then 30 else 31

/-- The validity check `datetime.date` / `strptime` perform on construction. -/
def dateOk (y : Int) (m d : Nat) : Bool :=
  1 ≤ y && y ≤ 9999 && 1 ≤ m && m ≤ 12 && 1 ≤ d && d ≤ daysInMonth y m

def mkValidDate (y : Int) (m d : Nat) : Option Date :=
  if dateOk y m d then some ⟨y, m, d⟩ else none

/-- `datetime.strptime(month, "%B").month`: full English month names,
case-insensitively. -/
def monthNumber (m : List Char) : Option Nat :=
  let ml := toLowerStr m
  if ml = "january".data then some 1
  else if ml = "february".data then some 2
  else if ml = "march".data then some 3
  else if ml = "april".data then some 4
  else if ml = "may".data then some 5
  else if ml = "june".data then some 6
  else if ml = "july".data then some 7
  else if ml = "august".data then some 8
  else if ml = "september".data then some 9
  else if ml = "october".data then some 10
  else if ml = "november".data then some 11
  else if ml = "december".data then some 12
  else none

/-- `%d` inside the composite `strptime` call: one or two digits. -/
def parseDay (s : List Char) : Option Nat :=
  match s with
  | [c] => if isDigitCh c then some (digitVal c) else none
  | [c1, c2] => if isDigitCh c1 && isDigitCh c2 then some (10 * digitVal c1 + digitVal c2) else none
  | _ => none

/-- Digit-group to number, for `int(x)` on filename capture groups. -/
def toNatDigits (ds : List Char) : Nat := ds.foldl (fun a c => 10 * a + digitVal c) 0

/-! ## Backtracking matcher combinators

Each combinator takes a continuation; ordered alternatives replicate
Python `re` backtracking (greedy pieces try the longest extent first). -/

/-- Match a literal, return the rest of the input. -/
def matchLit : List Char → List Char → Option (List Char)
  | [], cs => some cs
  | _ :: _, [] => none
  | l :: ls, c :: cs => if c = l then matchLit ls cs else none

/-- Greedy `p*` with capture: try the longest run first, backtracking one
character at a time; `acc` holds the (reversed) characters consumed so far. -/
def starCap {α : Type} (p : Char → Bool) (acc : List Char) (cs : List Char)
    (k : List Char → List Char → Option α) : Option α :=
  match cs with
  | [] => k acc.reverse []
  | c :: rest =>
    if p c then
      match starCap p (c :: acc) rest k with
      | some v => some v
      | none => k acc.reverse (c :: rest)
    else k acc.reverse (c :: rest)

/-- Exactly `n` characters matching `[0-9]`. -/
def digitsN {α : Type} : Nat → List Char → (List Char → List Char → Option α) → Option α
  | 0, cs, k => k [] cs
  | _ + 1, [], _ => none
  | n + 1, c :: cs, k =>
    if isDigitCh c then digitsN n cs (fun ds r => k (c :: ds) r) else none

/-- Greedy `[0-9]{1,2}`: two digits first, then one. -/
def digits12 {α : Type} (cs : List Char) (k : List Char → List Char → Option α) : Option α :=
  match cs with
  | [] => none
  | [c] => if isDigitCh c then k [c] [] else none
  | c1 :: c2 :: rest =>
    if isDigitCh c1 then
      if isDigitCh c2 then
        match k [c1, c2] rest with
        | some v => some v
        | none => k [c1] (c2 :: rest)
      else k [c1] (c2 :: rest)
    else none

/-- Scan candidate start positions left to right (`re.findall`, first match). -/
def scanAux {β : Type} (f : List Char → Option β) : List Char → Option β
  | [] => f []
  | c :: rest =>
    match f (c :: rest) with
    | some v => some v
    | none => scanAux f rest

/-! ## `RE_DATE_FROM_HEADER` and `DatasetTimes`

The regex is
`.*TESTING: (.*) WEEK \((?:([A-Za-z]*) )?([0-9]{1,2})-(?:([A-Za-z]*) )?([0-9]{1,2})(?:, Test Volume ((?:([A-Za-z]*) )?([0-9]{1,2})-(?:([A-Za-z]*) )?([0-9]{1,2})))? *\)`.

`findall` returns a 10-tuple per match; group 6 (the whole Test Volume
range) is never consulted by the code, so `HeaderGroups` records the other
nine captures:
`[0]`=category, `[1..4]`=first range, `[6..9]`=Test Volume range. -/

structure HeaderGroups where
  category : List Char
  m1 : List Char
  d1 : List Char
  m2 : List Char
  d2 : List Char
  tm1 : List Char
  td1 : List Char
  tm2 : List Char
  td2 : List Char
deriving DecidableEq, Repr

/-- `(?:([A-Za-z]*) )?`: greedy optional month name followed by a space;
skipping the group reports an empty capture. -/
def optMonth {α : Type} (cs : List Char) (k : List Char → List Char → Option α) : Option α :=
  match starCap isAlphaCh [] cs (fun m rest =>
      match rest with
      | ' ' :: rest2 => k m rest2
      | _ => none) with
  | some v => some v
  | none => k [] cs

/-- `DATE_RANGE_EXP = (?:([A-Za-z]*) )?([0-9]{1,2})-(?:([A-Za-z]*) )?([0-9]{1,2})`. -/
def matchRange {α : Type} (cs : List Char)
    (k : List Char → List Char → List Char → List Char → List Char → Option α) : Option α :=
  optMonth cs (fun m1 r1 =>
    digits12 r1 (fun d1 r2 =>
      match r2 with
      | '-' :: r3 =>
        optMonth r3 (fun m2 r4 =>
          digits12 r4 (fun d2 r5 => k m1 d1 m2 d2 r5))
      | _ => none))

/-- `(?:, Test Volume (DATE_RANGE_EXP))?`: greedy optional clause. -/
def matchTV {α : Type} (cs : List Char)
    (k : List Char → List Char → List Char → List Char → List Char → Option α) : Option α :=
  match (match matchLit ", Test Volume ".data cs with
         | some r => matchRange r (fun a b c d r2 => k a b c d r2)
         | none => none) with
  | some v => some v
  | none => k [] [] [] [] cs

/-- ` *\)` and then anything (the pattern is not end-anchored). -/
def matchClose {α : Type} (cs : List Char) (k : List Char → Option α) : Option α :=
  starCap (fun c => c = ' ') [] cs (fun _ r =>
    match r with
    | ')' :: rest => k rest
    | _ => none)

/-- The whole `RE_DATE_FROM_HEADER`, anchored at position 0 the way
`re.match` applies it (the leading `.*` cannot cross a newline). -/
def matchHeader (cs : List Char) : Option HeaderGroups :=
  starCap notNl [] cs (fun _ r0 =>
    match matchLit "TESTING: ".data r0 with
    | none => none
    | some r1 =>
      starCap notNl [] r1 (fun cat r2 =>
        match matchLit " WEEK (".data r2 with
        | none => none
        | some r3 =>
          matchRange r3 (fun m1 d1 m2 d2 r4 =>
            matchTV r4 (fun tm1 td1 tm2 td2 r5 =>
              matchClose r5 (fun _ => some ⟨cat, m1, d1, m2, d2, tm1, td1, tm2, td2⟩)))))

structure DatasetTimes where
  column : List Char
  positivity_reference_date : Date
  total_reference_date : Date
deriving DecidableEq, Repr

/-- `as_date(sub_result)` inside `DatasetTimes.from_header`: `sub_result`
is a 4-slice of capture groups `(month₁, day₁, month₂, day₂)`; the month of
the end day wins, falling back to the start month; the day is the end day;
the year comes from `publish_date`, minus one when the parsed month is
numerically greater than the publish month. -/
def asDate (m1 _d1 m2 dayStr : List Char) (publish : Date) : Option Date :=
  let month := if m2 ≠ [] then m2 else m1
  if month = [] then none
  else
    match monthNumber month with
    | none => none
    | some mn =>
      match parseDay dayStr with
      | none => none
      | some day =>
        let year : Int := if publish.month < mn then publish.year - 1 else publish.year
        mkValidDate year mn day

/-- `DatasetTimes.from_header`.  `none` models the `assert` /
`strptime` failures.  `findall_result[6]` is capture group 7, the month of
the Test Volume start day, so the Test Volume branch is taken exactly when
`tm1` is non-empty. -/
def DatasetTimes.from_header (header : List Char) (publish : Date) : Option DatasetTimes :=
  match matchHeader header with
  | none => none
  | some g =>
    match asDate g.m1 g.d1 g.m2 g.d2 publish with
    | none => none
    | some pos =>
      if g.tm1 ≠ [] then
        match asDate g.tm1 g.td1 g.tm2 g.td2 publish with
        | none => none
        | some tot => some ⟨toLowerStr g.category, pos, tot⟩
      else some ⟨toLowerStr g.category, pos, pos⟩

/-- `DatasetTimes.__getitem__`. -/
def DatasetTimes.getitem (dt : DatasetTimes) (key : List Char) : Except (List Char) Date :=
  if toLowerStr key = "positivity".data then .ok dt.positivity_reference_date
  else if toLowerStr key = "total".data then .ok dt.total_reference_date
  else .error ("Bad reference date type request \x27".data ++ key ++
    "\x27; need \x27total\x27 or \x27positivity\x27".data)





/-! ## Association lists (Python `dict` with insertion order) -/

def lookupKV {κ α : Type} [DecidableEq κ] (k : κ) : List (κ × α) → Option α
  | [] => none
  | p :: l => if p.1 = k then some p.2 else lookupKV k l

/-- `d[k] = v`: replace the (first) existing entry, else append. -/
def setKV {κ α : Type} [DecidableEq κ] (k : κ) (v : α) : List (κ × α) → List (κ × α)
  | [] => [(k, v)]
  | p :: l => if p.1 = k then (k, v) :: l else p :: setKV k v l

/-! ## `Dataset.skip_overheader` and `_parse_times_for_sheet` -/

/-- `Dataset.skip_overheader`; a `none` cell models a non-string value
(`isinstance(header, str)` fails). -/
def skip_overheader (header : Option (List Char)) : Bool :=
  match header with
  | none => true
  | some h =>
    !(("TESTING:".data.isPrefixOf h || "VIRAL (RT-PCR) LAB TESTING:".data.isPrefixOf h) &&
      strFind "WEEK (".data h > 0)

/-- The `for h in overheaders` loop of `Dataset._parse_times_for_sheet`:
skip irrelevant cells, parse the rest, merge by category enforcing
value-equality on repeats.  `times` is `self.times` on entry. -/
def mergeTimes (publish : Date) (times : List (List Char × DatasetTimes)) :
    List (Option (List Char)) → Except (List Char) (List (List Char × DatasetTimes))
  | [] => .ok times
  | h :: rest =>
    if skip_overheader h then mergeTimes publish times rest
    else
      match h with
      | none => mergeTimes publish times rest
      | some s =>
        match DatasetTimes.from_header s publish with
        | none => .error "Couldnt find reference date in header".data
        | some dt =>
          match lookupKV dt.column times with
          | some dt0 =>
            if dt0 = dt then mergeTimes publish times rest
            else .error "Conflicting reference date".data
          | none => mergeTimes publish (times ++ [(dt.column, dt)]) rest

/-- `Dataset._parse_times_for_sheet`: run the merge loop, then
`assert len(self.times) == 2`. -/
def parse_times_for_sheet (publish : Date) (times : List (List Char × DatasetTimes))
    (overheaders : List (Option (List Char))) :
    Except (List Char) (List (List Char × DatasetTimes)) :=
  match mergeTimes publish times overheaders with
  | .error e => .error e
  | .ok t =>
    if t.length = 2 then .ok t
    else .error "No times extracted from overheaders".data

/-! Specification-side views of the same loop, used to state the claims. -/

/-- The relevant (non-skipped) header cells, in order. -/
def relevantOf (hs : List (Option (List Char))) : List (List Char) :=
  hs.filterMap (fun c =>
    match c with
    | some s => if skip_overheader (some s) then none else some s
    | none => none)

/-- Parse result of each relevant header. -/
def parsedOf (publish : Date) (hs : List (Option (List Char))) : List (Option DatasetTimes) :=
  (relevantOf hs).map (fun s => DatasetTimes.from_header s publish)

/-- The successfully parsed `DatasetTimes`, in order. -/
def dtsOf (publish : Date) (hs : List (Option (List Char))) : List DatasetTimes :=
  (parsedOf publish hs).filterMap id

/-- The distinct category keys the relevant headers yield. -/
def yieldedCategories (publish : Date) (hs : List (Option (List Char))) : List (List Char) :=
  ((dtsOf publish hs).map (fun dt => dt.column)).dedup

/-- Two parsed records agree whenever they share a category key. -/
def colAgree (a b : DatasetTimes) : Prop := a.column = b.column → a = b

deriving instance DecidableEq for Except

/-! ## `Dataset.retain_header` and `RE_COLUMN_FROM_HEADER` -/

/-- `Dataset.retain_header`. -/
def retain_header (header : List Char) : Bool :=
  ("Total NAATs".data.isPrefixOf header ||
   "NAAT positivity rate".data.isPrefixOf header ||
   "Total RT-PCR".data.isPrefixOf header ||
   "Viral (RT-PCR)".data.isPrefixOf header) &&
  strFind "7 days".data header > 0 &&
  strFind " ages".data header < 0

/-- `RE_COLUMN_FROM_HEADER = re.compile('- (.*) 7 days')` tried at one
start position: literal `- `, greedy capture, literal ` 7 days`. -/
def matchColumnAt (cs : List Char) : Option (List Char) :=
  match matchLit "- ".data cs with
  | none => none
  | some r =>
    starCap notNl [] r (fun cap r2 =>
      match matchLit " 7 days".data r2 with
      | none => none
      | some _ => some cap)

/-- `RE_COLUMN_FROM_HEADER.findall(h)[0]` (first match, scanning left to
right); `none` models the `IndexError` on an empty result. -/
def reColumnFirst (cs : List Char) : Option (List Char) := scanAux matchColumnAt cs

/-! ## `RE_DATE_FROM_FILENAME` and `Dataset.parse_publish_date`

The regex is `.*([0-9]{4})([0-9]{2})([0-9]{2}).*xlsx`. -/

/-- The filename pattern anchored at one start position. -/
def matchFilenameAt (cs : List Char) : Option (List Char × List Char × List Char) :=
  starCap notNl [] cs (fun _ r0 =>
    digitsN 4 r0 (fun y r1 =>
      digitsN 2 r1 (fun m r2 =>
        digitsN 2 r2 (fun d r3 =>
          starCap notNl [] r3 (fun _ r4 =>
            match matchLit "xlsx".data r4 with
            | none => none
            | some _ => some (y, m, d))))))

/-- `RE_DATE_FROM_FILENAME.findall(report_filename)[0]`. -/
def scanFilename (cs : List Char) : Option (List Char × List Char × List Char) :=
  scanAux matchFilenameAt cs

/-- `Dataset.parse_publish_date`: `IndexError` when the regex has no match,
`ValueError` when `datetime.date` rejects the digits. -/
def parse_publish_date (report_filename : List Char) : Except (List Char) Date :=
  match scanFilename report_filename with
  | none => .error "IndexError: no date in filename".data
  | some (y, m, d) =>
    match mkValidDate (toNatDigits y) (toNatDigits m) (toNatDigits d) with
    | none => .error "ValueError: invalid date".data
    | some date => .ok date

/-- Specification-side reading of a successful filename parse: the date is
built from four, two, two consecutive digit groups followed (not
necessarily immediately, and not necessarily as a suffix) by the substring
`xlsx`. -/
def windowYields (f : List Char) (d : Date) : Prop :=
  ∃ pre ys ms ds mid rest,
    f = pre ++ ys ++ ms ++ ds ++ mid ++ "xlsx".data ++ rest ∧
    ys.length = 4 ∧ ms.length = 2 ∧ ds.length = 2 ∧
    (ys ++ ms ++ ds).all isDigitCh = true ∧
    d = ⟨(toNatDigits ys : Int), toNatDigits ms, toNatDigits ds⟩ ∧
    dateOk d.year d.month d.day = true







/-! ## Data frames and `Dataset._parse_sheet`

`pd.read_excel(..., header=1, index_col=0)` yields a frame with the detail
headers as `columns` and one row per geography.  Cell values are floats in
pandas; they are modelled by an abstract value type `V` carrying a
division operation (claims about them are structural, not about float
rounding). -/

variable {V : Type}

structure DFRow (V : Type) where
  index : List Char
  cells : List (List Char × V)
deriving DecidableEq, Repr

structure DataFrame (V : Type) where
  columns : List (List Char)
  rows : List (DFRow V)
deriving DecidableEq, Repr

/-- `df[h]` for one row; columns are unique in these reports. -/
def getCell [Inhabited V] (r : DFRow V) (h : List Char) : V :=
  (lookupKV h r.cells).getD default

/-- One entry of the externally configured `TRANSFORMS` table. -/
structure SheetConfig (V : Type) where
  name : List Char
  level : List Char
  row_filter : Option (DFRow V → Bool)
  geo_id_select : DFRow V → List Char
  geo_id_apply : List Char → List Char

/-- `if sheet.row_filter: df = df.loc[sheet.row_filter(df)]`. -/
def applyRowFilter (sheet : SheetConfig V) (df : DataFrame V) : DataFrame V :=
  match sheet.row_filter with
  | some f => ⟨df.columns, df.rows.filter f⟩
  | none => df

/-- One row of an extracted signal table: `geo_id`, `timestamp`, `val`,
`se`, `sample_size` (the last two always unset at this stage). -/
structure SignalRow (V : Type) where
  geo_id : List Char
  timestamp : Date
  val : V
  se : Option V
  sample_size : Option V
deriving DecidableEq, Repr

/-- `self.dfs`, keyed by `(level, signal)`. -/
abbrev DfsMap (V : Type) := List ((List Char × List Char) × List (SignalRow V))

/-- The `select` list comprehension:
`[(RE_COLUMN_FROM_HEADER.findall(h)[0], h, h.lower()) for h in df.columns if retain_header(h)]`;
the error models the `IndexError` when `findall` is empty for a retained
header. -/
def buildSelect : List (List Char) → Except (List Char) (List (List Char × List Char × List Char))
  | [] => .ok []
  | h :: rest =>
    if retain_header h then
      match reColumnFirst h with
      | none => .error "IndexError: no column capture".data
      | some cap =>
        match buildSelect rest with
        | .error e => .error e
        | .ok select => .ok ((cap, h, toLowerStr h) :: select)
    else buildSelect rest

def mapE {α β : Type} (f : α → Except (List Char) β) : List α → Except (List Char) (List β)
  | [] => .ok []
  | a :: l =>
    match f a with
    | .error e => .error e
    | .ok b =>
      match mapE f l with
      | .error e => .error e
      | .ok bs => .ok (b :: bs)

/-- One inner `pd.DataFrame({...})` of `_parse_sheet`: `si = (cap, h, h.lower())`;
`timestamp` is `self.times[si[0]][sig]` (`KeyError` if the category is
unknown, `ValueError` via `__getitem__` for a bad signal name); `val` is
the raw column `df[si[-2]]`. -/
def tableFor [Inhabited V] (times : List (List Char × DatasetTimes)) (sheet : SheetConfig V)
    (rows : List (DFRow V)) (sig : List Char) (si : List Char × List Char × List Char) :
    Except (List Char) (List (SignalRow V)) :=
  match lookupKV si.1 times with
  | none => .error "KeyError: unknown reference date category".data
  | some dtt =>
    match DatasetTimes.getitem dtt sig with
    | .error e => .error e
    | .ok ts =>
      .ok (rows.map (fun r =>
        ⟨sheet.geo_id_apply (sheet.geo_id_select r), ts, getCell r si.2.1, none, none⟩))

/-- The body of `for sig in SIGNALS`: filter `select` down to the headers
whose lowercase form contains `sig`, `assert` non-emptiness, build and
concatenate the per-header tables. -/
def sigTables [Inhabited V] (times : List (List Char × DatasetTimes)) (sheet : SheetConfig V)
    (rows : List (DFRow V)) (select : List (List Char × List Char × List Char))
    (sig : List Char) : Except (List Char) (List (SignalRow V)) :=
  let sig_select := select.filter (fun s => decide (0 ≤ strFind sig s.2.2))
  match sig_select with
  | [] => .error "AssertionError: no headers for signal".data
  | _ =>
    match mapE (tableFor times sheet rows sig) sig_select with
    | .error e => .error e
    | .ok ts => .ok ts.flatten

/-- The `for sig in SIGNALS` loop: each signal's table is stored under
`(sheet.level, sig)`. -/
def sigLoop [Inhabited V] (times : List (List Char × DatasetTimes)) (sheet : SheetConfig V)
    (rows : List (DFRow V)) (select : List (List Char × List Char × List Char)) :
    List (List Char) → DfsMap V → Except (List Char) (DfsMap V)
  | [], dfs => .ok dfs
  | sig :: rest, dfs =>
    match sigTables times sheet rows select sig with
    | .error e => .error e
    | .ok tbl => sigLoop times sheet rows select rest (setKV (sheet.level, sig) tbl dfs)

/-- One row of the in-place `val /= 7` update. -/
def divRow [Div V] [OfNat V 7] (r : SignalRow V) : SignalRow V :=
  ⟨r.geo_id, r.timestamp, r.val / 7, r.se, r.sample_size⟩

/-- `self.dfs[(sheet.level, "total")]["val"] /= 7` (a `KeyError` if the
entry is absent). -/
def divTotal [Div V] [OfNat V 7] (level : List Char) (dfs : DfsMap V) :
    Except (List Char) (DfsMap V) :=
  match lookupKV (level, "total".data) dfs with
  | none => .error "KeyError: no total table".data
  | some t => .ok (setKV (level, "total".data) (t.map divRow) dfs)

/-- `Dataset._parse_sheet`, parameterized by the configured signal list
(the source imports it from the external `constants` module). -/
def parse_sheet [Inhabited V] [Div V] [OfNat V 7] (signals : List (List Char))
    (times : List (List Char × DatasetTimes)) (sheet : SheetConfig V)
    (df : DataFrame V) (dfs : DfsMap V) : Except (List Char) (DfsMap V) :=
  let df2 := applyRowFilter sheet df
  match buildSelect df2.columns with
  | .error e => .error e
  | .ok select =>
    match sigLoop times sheet df2.rows select signals dfs with
    | .error e => .error e
    | .ok dfs1 => divTotal sheet.level dfs1

/-- Modelled from the spec: the configured signal names live in the
repository's `constants.py`, which is not under `src/`; the spec (§3,
§4.3, §4.4) names exactly the two signals "total" and "positivity". -/
def SIGNALS : List (List Char) := ["total".data, "positivity".data]

/-! Specification-side views for the sheet extractor. -/

/-- The retained detail headers whose lowercase form contains `sig`. -/
def retainedFor (cols : List (List Char)) (sig : List Char) : List (List Char) :=
  cols.filter (fun h => retain_header h && decide (0 ≤ strFind sig (toLowerStr h)))

/-- The raw column values, concatenated over `cols` in order. -/
def rawVals [Inhabited V] (rows : List (DFRow V)) (cols : List (List Char)) : List V :=
  (cols.map (fun h => rows.map (fun r => getCell r h))).flatten

/-- The `val` column of an extracted table. -/
def valsOf (t : List (SignalRow V)) : List V := t.map (fun r => r.val)

/-! ## `Dataset.__init__` -/

/-- The parts of the cached report file the parser reads: for each sheet
name, the overheader row (`pd.read_excel(..., header=None, nrows=1)`) and
the data frame (`pd.read_excel(..., header=1, index_col=0)`). -/
structure Workbook (V : Type) where
  overheaders : List Char → List (Option (List Char))
  frame : List Char → DataFrame V

/-- One record of the download listing, as consumed by `Dataset.__init__`
(`assetId` and `cached_filename` only feed the download/cache step). -/
structure ReportConfig where
  filename : List Char
  assetId : List Char
  cached_filename : List Char

/-- The `for si in sheets` loop of `Dataset.__init__`: `self.times` and
`self.dfs` are threaded through all sheets. -/
def datasetSheets [Inhabited V] [Div V] [OfNat V 7] (signals : List (List Char))
    (wb : Workbook V) (publish : Date) :
    List (SheetConfig V) → (List (List Char × DatasetTimes) × DfsMap V) →
    Except (List Char) (List (List Char × DatasetTimes) × DfsMap V)
  | [], st => .ok st
  | sheet :: rest, (times, dfs) =>
    match parse_times_for_sheet publish times (wb.overheaders sheet.name) with
    | .error e => .error e
    | .ok times2 =>
      match parse_sheet signals times2 sheet (wb.frame sheet.name) dfs with
      | .error e => .error e
      | .ok dfs2 => datasetSheets signals wb publish rest (times2, dfs2)

/-- `Dataset.__init__` on an already cached file: derive the publish date
from the configured filename, then parse every requested sheet.  Only
`config.filename` and the workbook content influence the result. -/
def datasetInit [Inhabited V] [Div V] [OfNat V 7] (signals : List (List Char))
    (sheets : List (SheetConfig V)) (wb : Workbook V) (config : ReportConfig) :
    Except (List Char) (Date × List (List Char × DatasetTimes) × DfsMap V) :=
  match parse_publish_date config.filename with
  | .error e => .error e
  | .ok publish =>
    match datasetSheets signals wb publish sheets ([], []) with
    | .error e => .error e
    | .ok st => .ok (publish, st.1, st.2)

/-! Concrete instances reused by witnesses below. -/

def sheetW : SheetConfig Int :=
  ⟨"Regions".data, "state".data, none, fun r => r.index, fun g => g⟩

def hdrTotW : List Char :=
  "Total NAATs - last 7 days (may be an underestimate due to delayed reporting)".data

def hdrPosW : List Char :=
  "NAAT positivity rate - last 7 days (may be an underestimate due to delayed reporting)".data

def dfW : DataFrame Int :=
  ⟨[hdrTotW, hdrPosW], [⟨"ca".data, [(hdrTotW, 14), (hdrPosW, 5)]⟩]⟩

def dtLastW : DatasetTimes := ⟨"last".data, ⟨2021, 10, 30⟩, ⟨2021, 10, 26⟩⟩

def timesW : List (List Char × DatasetTimes) := [("last".data, dtLastW)]

def dfsOutW : DfsMap Int :=
  [(("state".data, "total".data), [⟨"ca".data, ⟨2021, 10, 26⟩, 2, none, none⟩]),
   (("state".data, "positivity".data), [⟨"ca".data, ⟨2021, 10, 30⟩, 5, none, none⟩])]


/-- The month `as_date` resolves for a 4-slice of capture groups: the
end-day month when present, else the start-day month. -/
def rangeMonthNum (m1 m2 : List Char) : Option Nat :=
  monthNumber (if m2 ≠ [] then m2 else m1)

/-- The merge loop expressed over the parse results of the relevant
headers; `mergeTimes_eq_mergeDts` proves it coincides with `mergeTimes`. -/
def mergeDts (times : List (List Char × DatasetTimes)) :
    List (Option DatasetTimes) → Except (List Char) (List (List Char × DatasetTimes))
  | [] => .ok times
  | none :: _ => .error "Couldnt find reference date in header".data
  | some dt :: rest =>
    match lookupKV dt.column times with
    | some dt0 =>
      if dt0 = dt then mergeDts times rest
      else .error "Conflicting reference date".data
    | none => mergeDts (times ++ [(dt.column, dt)]) rest

/-- `times` agrees with every record of `ds` on shared category keys. -/
def timesAgree (times : List (List Char × DatasetTimes)) (ds : List DatasetTimes) : Prop :=
  ∀ dt ∈ ds, ∀ p ∈ times, p.1 = dt.column → p.2 = dt

instance : DecidableRel colAgree := fun a b => by
  unfold colAgree
  infer_instance

def pubW : Date := ⟨2021, 11, 4⟩

def hsConf : List (Option (List Char)) :=
  [some "TESTING: LAST WEEK (October 24-30)".data,
   some "TESTING: PREVIOUS WEEK (October 17-23)".data,
   some "TESTING: LAST WEEK (October 1-2)".data]

def hsDup : List (Option (List Char)) :=
  [some "TESTING: LAST WEEK (October 24-30)".data,
   some "TESTING: LAST WEEK (October 24-30)".data,
   some "TESTING: PREVIOUS WEEK (October 17-23)".data]

def cfgA : ReportConfig :=
  ⟨"Community Profile Report 20211104.xlsx".data, "abc".data, "cache-1".data⟩

def cfgB : ReportConfig :=
  ⟨"Community Profile Report 20211104.xlsx".data, "xyz".data, "cache-2".data⟩

def wbW : Workbook Int :=
  ⟨fun _ => [some "TESTING: LAST WEEK (October 24-30, Test Volume October 20-26)".data,
             some "TESTING: PREVIOUS WEEK (October 17-23)".data],
   fun _ => dfW⟩

def dfW2 : DataFrame Int := ⟨[hdrPosW], [⟨"ca".data, [(hdrPosW, 5)]⟩]⟩

/-! ## Supporting lemmas: `strFind` -/

theorem strFindAux_neg_or_ge (needle hay : List Char) (i : Nat) :
    strFindAux needle hay i = -1 ∨ (i : Int) ≤ strFindAux needle hay i := by
  induction hay generalizing i with
  | nil =>
    by_cases h : needle = []
    · right; simp [strFindAux, h]
    · left; simp [strFindAux, h]
  | cons c t ih =>
    by_cases h : needle.isPrefixOf (c :: t)
    · right; simp [strFindAux, h]
    · rcases ih (i + 1) with h1 | h1
      · left; simpa [strFindAux, h] using h1
      · right
        simp only [strFindAux, h, if_false]
        calc (i : Int) ≤ ((i + 1 : Nat) : Int) := by push_cast; omega
          _ ≤ _ := h1

theorem strFind_eq_zero_iff (needle hay : List Char) :
    strFind needle hay = 0 ↔ needle.isPrefixOf hay = true := by
  cases hay with
  | nil =>
    by_cases h : needle = []
    · simp [strFind, strFindAux, h, List.isPrefixOf]
    · cases needle with
      | nil => simp at h
      | cons a b => simp [strFind, strFindAux, List.isPrefixOf]
  | cons c t =>
    by_cases h : needle.isPrefixOf (c :: t)
    · simp [strFind, strFindAux, h]
    · have hrw : strFind needle (c :: t) = strFindAux needle t 1 := by
        simp [strFind, strFindAux, h]
      rw [hrw]
      constructor
      · intro h2
        exfalso
        rcases strFindAux_neg_or_ge needle t 1 with h1 | h1
        · rw [h2] at h1; exact absurd h1 (by decide)
        · rw [h2] at h1; exact absurd h1 (by decide)
      · intro h2; exact absurd h2 h

theorem strFindAux_nonneg_contains (needle hay : List Char) (i : Nat)
    (h : 0 ≤ strFindAux needle hay i) : containsSubstr needle hay := by
  induction hay generalizing i with
  | nil =>
    by_cases hn : needle = []
    · exact ⟨[], [], by simp [hn]⟩
    · simp [strFindAux, hn] at h
  | cons c t ih =>
    by_cases hp : needle.isPrefixOf (c :: t)
    · rcases List.isPrefixOf_iff_prefix.mp hp with ⟨b, hb⟩
      exact ⟨[], b, by simp [hb]⟩
    · simp only [strFindAux, hp, if_false] at h
      rcases ih (i + 1) h with ⟨a, b, hab⟩
      exact ⟨c :: a, b, by simp [hab]⟩

theorem strFindAux_contains_nonneg (needle hay : List Char) (i : Nat)
    (h : containsSubstr needle hay) : 0 ≤ strFindAux needle hay i := by
  rcases h with ⟨a, b, hab⟩
  induction a generalizing hay i with
  | nil =>
    have hp : needle.isPrefixOf hay = true :=
      List.isPrefixOf_iff_prefix.mpr ⟨b, by simpa using hab.symm⟩
    cases hay with
    | nil =>
      have : needle = [] := by
        cases needle with
        | nil => rfl
        | cons x y => simp [List.isPrefixOf] at hp
      simp [strFindAux, this]
    | cons c t => simp [strFindAux, hp]
  | cons c a ih =>
    cases hay with
    | nil => simp at hab
    | cons c2 t =>
      have hc : c2 = c ∧ t = a ++ needle ++ b := by
        simpa using hab
      by_cases hp : needle.isPrefixOf (c2 :: t)
      · simp [strFindAux, hp]
      · simp only [strFindAux, hp, if_false]
        exact ih t (i + 1) hc.2

theorem strFind_nonneg_iff (needle hay : List Char) :
    0 ≤ strFind needle hay ↔ containsSubstr needle hay :=
  ⟨strFindAux_nonneg_contains needle hay 0, strFindAux_contains_nonneg needle hay 0⟩

theorem strFind_neg_iff (needle hay : List Char) :
    strFind needle hay < 0 ↔ ¬containsSubstr needle hay := by
  rw [← strFind_nonneg_iff]; omega

/-! ## Claim C6: `retain_header` -/

/-- C6: `Dataset.retain_header` returns true iff the detail header starts
with one of the four fixed recognized signal-label prefixes, contains the
7-day-window marker substring `"7 days"`, and does not contain the
age-stratification marker `" ages"`; in particular any header containing
the age marker is excluded even when the other two conditions hold. -/
theorem claim_c6 (header : List Char) :
    retain_header header = true ↔
      (("Total NAATs".data.isPrefixOf header = true ∨
        "NAAT positivity rate".data.isPrefixOf header = true ∨
        "Total RT-PCR".data.isPrefixOf header = true ∨
        "Viral (RT-PCR)".data.isPrefixOf header = true) ∧
       containsSubstr "7 days".data header ∧
       ¬containsSubstr " ages".data header) := by
  unfold retain_header
  simp only [Bool.and_eq_true, Bool.or_eq_true, decide_eq_true_eq]
  constructor
  · rintro ⟨⟨hpre, h7⟩, hage⟩
    refine ⟨by tauto, ?_, ?_⟩
    · exact (strFind_nonneg_iff _ _).mp (le_of_lt h7)
    · exact (strFind_neg_iff _ _).mp hage
  · rintro ⟨hpre, h7, hage⟩
    refine ⟨⟨by tauto, ?_⟩, (strFind_neg_iff _ _).mpr hage⟩
    have hge : 0 ≤ strFind "7 days".data header := (strFind_nonneg_iff _ _).mpr h7
    rcases eq_or_lt_of_le hge with heq | hlt
    · exfalso
      have hp7 : "7 days".data.isPrefixOf header = true :=
        (strFind_eq_zero_iff _ _).mp heq.symm
      rcases List.isPrefixOf_iff_prefix.mp hp7 with ⟨t7, ht7⟩
      have h1 : header.head? = some '7' := by rw [← ht7]; rfl
      rcases hpre with h | h | h | h
      · rcases List.isPrefixOf_iff_prefix.mp h with ⟨t, ht⟩
        have h2 : header.head? = some 'T' := by rw [← ht]; rfl
        rw [h1] at h2; exact absurd h2 (by decide)
      · rcases List.isPrefixOf_iff_prefix.mp h with ⟨t, ht⟩
        have h2 : header.head? = some 'N' := by rw [← ht]; rfl
        rw [h1] at h2; exact absurd h2 (by decide)
      · rcases List.isPrefixOf_iff_prefix.mp h with ⟨t, ht⟩
        have h2 : header.head? = some 'T' := by rw [← ht]; rfl
        rw [h1] at h2; exact absurd h2 (by decide)
      · rcases List.isPrefixOf_iff_prefix.mp h with ⟨t, ht⟩
        have h2 : header.head? = some 'V' := by rw [← ht]; rfl
        rw [h1] at h2; exact absurd h2 (by decide)
    · exact hlt

/-! ## Claim C10: `DatasetTimes.__getitem__` -/

/-- C10: the dictionary-style lookup on `DatasetTimes` is case-insensitive
in its key: any casing of "positivity" returns the positivity reference
date, any casing of "total" returns the total reference date, and every
other key raises a `ValueError` whose message names the offending key. -/
theorem claim_c10 (dt : DatasetTimes) (key : List Char) :
    (toLowerStr key = "positivity".data →
      dt.getitem key = .ok dt.positivity_reference_date) ∧
    (toLowerStr key = "total".data →
      dt.getitem key = .ok dt.total_reference_date) ∧
    (toLowerStr key ≠ "positivity".data → toLowerStr key ≠ "total".data →
      dt.getitem key = .error ("Bad reference date type request \x27".data ++ key ++
        "\x27; need \x27total\x27 or \x27positivity\x27".data)) := by
  refine ⟨fun h => ?_, fun h => ?_, fun h1 h2 => ?_⟩
  · unfold DatasetTimes.getitem
    rw [if_pos h]
  · unfold DatasetTimes.getitem
    rw [if_neg (by rw [h]; decide), if_pos h]
  · unfold DatasetTimes.getitem
    rw [if_neg h1, if_neg h2]

theorem claim_c10_witness :
    DatasetTimes.getitem dtLastW "PoSiTiViTy".data = .ok ⟨2021, 10, 30⟩ ∧
    DatasetTimes.getitem dtLastW "TOTAL".data = .ok ⟨2021, 10, 26⟩ ∧
    DatasetTimes.getitem dtLastW "week".data =
      .error ("Bad reference date type request \x27".data ++ "week".data ++
        "\x27; need \x27total\x27 or \x27positivity\x27".data) :=
  ⟨(claim_c10 dtLastW "PoSiTiViTy".data).1 (by decide),
   (claim_c10 dtLastW "TOTAL".data).2.1 (by decide),
   (claim_c10 dtLastW "week".data).2.2 (by decide) (by decide)⟩

/-! ## Claim C9: determinism of extraction -/

/-- C9: the extraction pipeline is deterministic and depends only on the
workbook content (the cached file bytes) and the configured filename: two
`Dataset` initializations whose configurations agree on `filename` and
whose workbooks are equal produce identical publish dates, reference-date
maps and extracted signal tables, whatever their `assetId` or cache paths
are. -/
theorem claim_c9 {V : Type} [Inhabited V] [Div V] [OfNat V 7]
    (signals : List (List Char)) (sheets : List (SheetConfig V))
    (wb1 wb2 : Workbook V) (c1 c2 : ReportConfig)
    (hw : wb1 = wb2) (hf : c1.filename = c2.filename) :
    datasetInit signals sheets wb1 c1 = datasetInit signals sheets wb2 c2 := by
  subst hw
  unfold datasetInit
  rw [hf]

theorem claim_c9_witness :
    datasetInit SIGNALS [sheetW] wbW cfgA = datasetInit SIGNALS [sheetW] wbW cfgB :=
  claim_c9 SIGNALS [sheetW] wbW wbW cfgA cfgB rfl rfl

/-! ## Claim C1: year inference -/

theorem asDate_year (m1 d1 m2 d2 : List Char) (publish : Date) (d : Date) (mn : Nat)
    (hd : asDate m1 d1 m2 d2 publish = some d)
    (hm : rangeMonthNum m1 m2 = some mn) :
    d.year = if publish.month < mn then publish.year - 1 else publish.year := by
  unfold rangeMonthNum at hm
  simp only [asDate] at hd
  set month := if m2 ≠ [] then m2 else m1 with hmonth
  by_cases h0 : month = []
  · rw [if_pos h0] at hd
    exact absurd hd (by simp)
  · rw [if_neg h0, hm] at hd
    cases hpd : parseDay d2 with
    | none =>
      rw [hpd] at hd
      exact absurd hd (by simp)
    | some day =>
      rw [hpd] at hd
      simp only [mkValidDate] at hd
      split at hd <;> rename_i hlt
      · split at hd
        · obtain rfl : (⟨publish.year - 1, mn, day⟩ : Date) = d := by injection hd
          simp [hlt]
        · exact absurd hd (by simp)
      · split at hd
        · obtain rfl : (⟨publish.year, mn, day⟩ : Date) = d := by injection hd
          simp [hlt]
        · exact absurd hd (by simp)

/-- C1: for every header matching the fixed template (witnessed by its
capture groups `g`) on which `DatasetTimes.from_header` succeeds, the year
of each resolved reference date is `publish.year - 1` exactly when the
parsed month's number exceeds the publish month's number, and
`publish.year` otherwise — for the positivity date via the first day
range's parsed month, and for the total date via the Test Volume range's
parsed month when that range is used. -/
theorem claim_c1 (header : List Char) (publish : Date) (g : HeaderGroups) (dt : DatasetTimes)
    (hg : matchHeader header = some g)
    (hf : DatasetTimes.from_header header publish = some dt) :
    (∀ mn, rangeMonthNum g.m1 g.m2 = some mn →
        dt.positivity_reference_date.year =
          if publish.month < mn then publish.year - 1 else publish.year) ∧
    (g.tm1 ≠ [] → ∀ mn, rangeMonthNum g.tm1 g.tm2 = some mn →
        dt.total_reference_date.year =
          if publish.month < mn then publish.year - 1 else publish.year) := by
  simp only [DatasetTimes.from_header, hg] at hf
  split at hf
  · exact absurd hf (by simp)
  · rename_i pos hpos
    by_cases htv : g.tm1 = []
    · rw [if_neg (by simp [htv])] at hf
      obtain rfl : (⟨toLowerStr g.category, pos, pos⟩ : DatasetTimes) = dt := by injection hf
      exact ⟨fun mn hm => asDate_year _ _ _ _ _ _ _ hpos hm, fun hne => absurd htv hne⟩
    · rw [if_pos htv] at hf
      split at hf
      · exact absurd hf (by simp)
      · rename_i tot htot
        obtain rfl : (⟨toLowerStr g.category, pos, tot⟩ : DatasetTimes) = dt := by injection hf
        exact ⟨fun mn hm => asDate_year _ _ _ _ _ _ _ hpos hm,
               fun _ mn hm => asDate_year _ _ _ _ _ _ _ htot hm⟩

theorem claim_c1_witness :
    DatasetTimes.from_header "TESTING: LAST WEEK (December 26-31)".data ⟨2021, 1, 3⟩ =
      some ⟨"last".data, ⟨2020, 12, 31⟩, ⟨2020, 12, 31⟩⟩ ∧
    (⟨2020, 12, 31⟩ : Date).year = 2020 := by
  refine ⟨by rfl, ?_⟩
  have h := (claim_c1 "TESTING: LAST WEEK (December 26-31)".data ⟨2021, 1, 3⟩
      ⟨"LAST".data, "December".data, "26".data, [], "31".data, [], [], [], []⟩
      ⟨"last".data, ⟨2020, 12, 31⟩, ⟨2020, 12, 31⟩⟩ rfl rfl).1 12 rfl
  exact h

/-! ## Claim C2: dual reference dates -/

/-- C2 counterexample: the header
`"TESTING: LAST WEEK (October 24-30, Test Volume 20-October 26)"` matches
the fixed template and supplies a second ("Test Volume") day-range whose
resolution (per `as_date`) is 2021-10-26; yet, because the Test Volume
range's start day carries no month name (capture group 7 is empty),
`from_header` ignores it and returns `total_reference_date` equal to the
positivity date 2021-10-30, contradicting the claim that a supplied second
range always becomes `total_reference_date`. -/
theorem claim_c2_counterexample :
    matchHeader "TESTING: LAST WEEK (October 24-30, Test Volume 20-October 26)".data =
      some ⟨"LAST".data, "October".data, "24".data, [], "30".data,
            [], "20".data, "October".data, "26".data⟩ ∧
    asDate [] "20".data "October".data "26".data ⟨2021, 11, 4⟩ = some ⟨2021, 10, 26⟩ ∧
    DatasetTimes.from_header
      "TESTING: LAST WEEK (October 24-30, Test Volume 20-October 26)".data
      ⟨2021, 11, 4⟩ =
      some ⟨"last".data, ⟨2021, 10, 30⟩, ⟨2021, 10, 30⟩⟩ :=
  ⟨by rfl, by rfl, by rfl⟩

/-- C2 (amended): when `from_header` succeeds, the total reference date is
resolved from the Test Volume day-range exactly when that range's start
day carries an explicit month name (capture group 7 non-empty); otherwise
— including every header with no Test Volume clause at all —
`total_reference_date` equals `positivity_reference_date`.  The concrete
scenario of the claim holds: header
`"TESTING: LAST WEEK (October 24-30, Test Volume October 20-26)"` with
publish date 2021-11-04 yields category "last", positivity date
2021-10-30 and total date 2021-10-26. -/
theorem claim_c2_amended (header : List Char) (publish : Date) (g : HeaderGroups)
    (dt : DatasetTimes) (hg : matchHeader header = some g)
    (hf : DatasetTimes.from_header header publish = some dt) :
    (g.tm1 ≠ [] → asDate g.tm1 g.td1 g.tm2 g.td2 publish = some dt.total_reference_date) ∧
    (g.tm1 = [] → dt.total_reference_date = dt.positivity_reference_date) ∧
    DatasetTimes.from_header
      "TESTING: LAST WEEK (October 24-30, Test Volume October 20-26)".data ⟨2021, 11, 4⟩ =
      some ⟨"last".data, ⟨2021, 10, 30⟩, ⟨2021, 10, 26⟩⟩ := by
  refine ⟨?_, ?_, by rfl⟩ <;>
  · intro htv
    simp only [DatasetTimes.from_header, hg] at hf
    split at hf
    · exact absurd hf (by simp)
    · rename_i pos hpos
      first
        | (rw [if_pos htv] at hf
           split at hf
           · exact absurd hf (by simp)
           · rename_i tot htot
             obtain rfl : (⟨toLowerStr g.category, pos, tot⟩ : DatasetTimes) = dt := by
               injection hf
             exact htot)
        | (rw [if_neg (by simp [htv])] at hf
           obtain rfl : (⟨toLowerStr g.category, pos, pos⟩ : DatasetTimes) = dt := by
             injection hf
           rfl)

theorem claim_c2_amended_witness :
    asDate "October".data "20".data [] "26".data ⟨2021, 11, 4⟩ =
      some (⟨"last".data, ⟨2021, 10, 30⟩, ⟨2021, 10, 26⟩⟩ :
        DatasetTimes).total_reference_date :=
  (claim_c2_amended
    "TESTING: LAST WEEK (October 24-30, Test Volume October 20-26)".data ⟨2021, 11, 4⟩
    ⟨"LAST".data, "October".data, "24".data, [], "30".data,
     "October".data, "20".data, [], "26".data⟩
    ⟨"last".data, ⟨2021, 10, 30⟩, ⟨2021, 10, 26⟩⟩
    (by rfl) (by rfl)).1 (by decide)

/-! ## Supporting lemmas: matcher decompositions -/

theorem matchLit_some (l cs r : List Char) (h : matchLit l cs = some r) : cs = l ++ r := by
  induction l generalizing cs with
  | nil => simpa [matchLit] using h
  | cons a l ih =>
    cases cs with
    | nil => simp [matchLit] at h
    | cons c t =>
      by_cases hc : c = a
      · subst hc
        simp only [matchLit, if_pos rfl] at h
        simp [ih t h]
      · simp [matchLit, hc] at h

theorem starCap_some {α : Type} (p : Char → Bool) (acc cs : List Char)
    (k : List Char → List Char → Option α) (v : α)
    (h : starCap p acc cs k = some v) :
    ∃ s t, cs = s ++ t ∧ (∀ c ∈ s, p c = true) ∧ k (acc.reverse ++ s) t = some v := by
  induction cs generalizing acc with
  | nil =>
    refine ⟨[], [], by simp, by simp, ?_⟩
    simpa [starCap] using h
  | cons c rest ih =>
    by_cases hp : p c = true
    · simp only [starCap, hp, if_true] at h
      cases hsc : starCap p (c :: acc) rest k with
      | some v2 =>
        rw [hsc] at h
        obtain rfl : v2 = v := by injection h
        rcases ih (c :: acc) hsc with ⟨s, t, hst, hall, hk⟩
        refine ⟨c :: s, t, by simp [hst], ?_, ?_⟩
        · intro x hx
          rcases List.mem_cons.mp hx with rfl | hx
          exacts [hp, hall x hx]
        · simpa using hk
      | none =>
        rw [hsc] at h
        exact ⟨[], c :: rest, by simp, by simp, by simpa using h⟩
    · simp only [starCap, hp] at h
      exact ⟨[], c :: rest, by simp, by simp, by simpa [Bool.of_not_eq_true hp] using h⟩

theorem digitsN_some {α : Type} (n : Nat) (cs : List Char)
    (k : List Char → List Char → Option α) (v : α)
    (h : digitsN n cs k = some v) :
    ∃ s t, cs = s ++ t ∧ s.length = n ∧ (∀ c ∈ s, isDigitCh c = true) ∧ k s t = some v := by
  induction n generalizing cs k with
  | zero => exact ⟨[], cs, by simp, by simp, by simp, by simpa [digitsN] using h⟩
  | succ n ih =>
    cases cs with
    | nil => simp [digitsN] at h
    | cons c rest =>
      by_cases hd : isDigitCh c = true
      · simp only [digitsN, hd, if_true] at h
        rcases ih rest _ h with ⟨s, t, hst, hlen, hall, hk⟩
        refine ⟨c :: s, t, by simp [hst], by simp [hlen], ?_, hk⟩
        intro x hx
        rcases List.mem_cons.mp hx with rfl | hx
        exacts [hd, hall x hx]
      · simp [digitsN, hd] at h

theorem scanAux_some {β : Type} (f : List Char → Option β) (cs : List Char) (v : β)
    (h : scanAux f cs = some v) : ∃ a t, cs = a ++ t ∧ f t = some v := by
  induction cs with
  | nil => exact ⟨[], [], by simp, by simpa [scanAux] using h⟩
  | cons c rest ih =>
    cases hf : f (c :: rest) with
    | some v2 =>
      simp only [scanAux, hf] at h
      obtain rfl : v2 = v := by injection h
      exact ⟨[], c :: rest, by simp, hf⟩
    | none =>
      simp only [scanAux, hf] at h
      rcases ih h with ⟨a, t, hat, hft⟩
      exact ⟨c :: a, t, by simp [hat], hft⟩

/-! ## Claim C8: `parse_publish_date` -/

/-- C8 counterexample: the regex `RE_DATE_FROM_FILENAME` only requires the
substring `xlsx` somewhere after the digits, not a `.xlsx` suffix; the
filename `"Community Profile Report 20211104xlsx"` contains no `.xlsx` at
all (so the claim's pattern cannot match and the claim demands a hard
error), yet `parse_publish_date` succeeds on it. -/
theorem claim_c8_counterexample :
    strFind ".xlsx".data "Community Profile Report 20211104xlsx".data < 0 ∧
    parse_publish_date "Community Profile Report 20211104xlsx".data =
      .ok ⟨2021, 11, 4⟩ :=
  ⟨by decide, by rfl⟩

/-- C8 (amended): every date `parse_publish_date` returns is extracted as
four, two, two consecutive digit groups embedded before a later occurrence
of the substring `xlsx` (the dot and the suffix position are NOT required)
and forming a valid calendar date; contrapositively, a filename admitting
no such decomposition fails with a hard error (the `Except.error` branch)
rather than producing a default date. -/
theorem claim_c8_amended (f : List Char) (d : Date)
    (h : parse_publish_date f = .ok d) : windowYields f d := by
  unfold parse_publish_date at h
  split at h
  · exact absurd h (by simp)
  · rename_i y m dd hs
    split at h
    · exact absurd h (by simp)
    · rename_i date hmk
      obtain rfl : d = date := by injection h with h2; exact h2.symm
      rcases scanAux_some _ _ _ hs with ⟨a, t, hat, hmt⟩
      unfold matchFilenameAt at hmt
      rcases starCap_some _ _ _ _ _ hmt with ⟨s0, t0, ht0, _, hk0⟩
      rcases digitsN_some _ _ _ _ hk0 with ⟨ys, t1, ht1, hylen, hydig, hk1⟩
      rcases digitsN_some _ _ _ _ hk1 with ⟨ms, t2, ht2, hmlen, hmdig, hk2⟩
      rcases digitsN_some _ _ _ _ hk2 with ⟨ds, t3, ht3, hdlen, hddig, hk3⟩
      rcases starCap_some _ _ _ _ _ hk3 with ⟨s4, t4, ht4, _, hk4⟩
      cases hlit : matchLit "xlsx".data t4 with
      | none => rw [hlit] at hk4; exact absurd hk4 (by simp)
      | some r =>
        rw [hlit] at hk4
        obtain ⟨rfl, rfl, rfl⟩ : ys = y ∧ ms = m ∧ ds = dd := by
          have := hk4
          simp only [Option.some.injEq, Prod.mk.injEq] at this
          exact ⟨this.1, this.2.1, this.2.2⟩
        have hx : t4 = "xlsx".data ++ r := matchLit_some _ _ _ hlit
        have hdok : dateOk (toNatDigits ys) (toNatDigits ms) (toNatDigits ds) = true ∧
            d = ⟨(toNatDigits ys : Int), toNatDigits ms, toNatDigits ds⟩ := by
          unfold mkValidDate at hmk
          split at hmk
          · refine ⟨by assumption, ?_⟩
            injection hmk with h2
            exact h2.symm
          · exact absurd hmk (by simp)
        refine ⟨a ++ s0, ys, ms, ds, s4, r, ?_, hylen, hmlen, hdlen, ?_, hdok.2, ?_⟩
        · rw [hat, ht0, ht1, ht2, ht3, ht4, hx]
          simp
        · rw [List.all_eq_true]
          intro x hx2
          rcases List.mem_append.mp hx2 with hx2 | hx2
          · rcases List.mem_append.mp hx2 with hx2 | hx2
            exacts [hydig x hx2, hmdig x hx2]
          · exact hddig x hx2
        · rw [hdok.2]
          exact hdok.1

theorem claim_c8_amended_witness :
    windowYields "Community Profile Report 20211104.xlsx".data ⟨2021, 11, 4⟩ :=
  claim_c8_amended "Community Profile Report 20211104.xlsx".data ⟨2021, 11, 4⟩ (by rfl)

/-! ## Supporting lemmas: the overheader merge loop -/

theorem relevantOf_cons_none (rest : List (Option (List Char))) :
    relevantOf (none :: rest) = relevantOf rest := by
  simp [relevantOf]

theorem relevantOf_cons_skip (s : List Char) (rest : List (Option (List Char)))
    (h : skip_overheader (some s) = true) :
    relevantOf (some s :: rest) = relevantOf rest := by
  simp [relevantOf, h]

theorem relevantOf_cons_keep (s : List Char) (rest : List (Option (List Char)))
    (h : skip_overheader (some s) = false) :
    relevantOf (some s :: rest) = s :: relevantOf rest := by
  simp [relevantOf, h]

theorem mergeTimes_eq_mergeDts (publish : Date) (times : List (List Char × DatasetTimes))
    (hs : List (Option (List Char))) :
    mergeTimes publish times hs = mergeDts times (parsedOf publish hs) := by
  induction hs generalizing times with
  | nil => rfl
  | cons h rest ih =>
    cases h with
    | none =>
      rw [show mergeTimes publish times (none :: rest) = mergeTimes publish times rest from
          by simp [mergeTimes, skip_overheader]]
      rw [show parsedOf publish (none :: rest) = parsedOf publish rest from
          by simp [parsedOf, relevantOf_cons_none]]
      exact ih times
    | some s =>
      cases hsk : skip_overheader (some s) with
      | true =>
        rw [show mergeTimes publish times (some s :: rest) = mergeTimes publish times rest from
            by simp [mergeTimes, hsk]]
        rw [show parsedOf publish (some s :: rest) = parsedOf publish rest from
            by simp [parsedOf, relevantOf_cons_skip s rest hsk]]
        exact ih times
      | false =>
        have hp : parsedOf publish (some s :: rest) =
            DatasetTimes.from_header s publish :: parsedOf publish rest := by
          simp [parsedOf, relevantOf_cons_keep s rest hsk]
        rw [hp]
        simp only [mergeTimes, hsk, Bool.false_eq_true, if_false]
        cases hfh : DatasetTimes.from_header s publish with
        | none => simp [mergeDts]
        | some dt =>
          simp only [mergeDts]
          cases hlk : lookupKV dt.column times with
          | some dt0 =>
            by_cases heq : dt0 = dt
            · simp only [heq, if_pos rfl]
              exact ih times
            · simp [heq]
          | none => exact ih (times ++ [(dt.column, dt)])

theorem lookupKV_none_iff {κ α : Type} [DecidableEq κ] (k : κ) (l : List (κ × α)) :
    lookupKV k l = none ↔ ∀ p ∈ l, p.1 ≠ k := by
  induction l with
  | nil => simp [lookupKV]
  | cons p l ih =>
    by_cases h : p.1 = k
    · simp [lookupKV, h]
    · simp [lookupKV, h, ih]

theorem lookupKV_some_mem {κ α : Type} [DecidableEq κ] (k : κ) (v : α) (l : List (κ × α))
    (h : lookupKV k l = some v) : (k, v) ∈ l := by
  induction l with
  | nil => simp [lookupKV] at h
  | cons p l ih =>
    rcases p with ⟨pk, pv⟩
    by_cases hp : pk = k
    · subst hp
      simp only [lookupKV, if_pos rfl] at h
      obtain rfl : pv = v := by injection h
      exact List.mem_cons_self _ _
    · simp only [lookupKV, if_neg hp] at h
      exact List.mem_cons_of_mem _ (ih h)

theorem lookupKV_unique {κ α : Type} [DecidableEq κ] (k : κ) (v : α)
    (l : List (κ × α)) (hnd : (l.map Prod.fst).Nodup)
    (h : lookupKV k l = some v) : ∀ p ∈ l, p.1 = k → p.2 = v := by
  induction l with
  | nil => simp
  | cons q l ih =>
    rcases q with ⟨qk, qv⟩
    simp only [List.map_cons, List.nodup_cons] at hnd
    by_cases hq : qk = k
    · subst hq
      simp only [lookupKV, if_pos rfl] at h
      obtain rfl : qv = v := by injection h
      intro p hp hpk
      rcases List.mem_cons.mp hp with rfl | hp
      · rfl
      · exact absurd (by rw [← hpk]; exact List.mem_map_of_mem Prod.fst hp) hnd.1
    · simp only [lookupKV, if_neg hq] at h
      intro p hp hpk
      rcases List.mem_cons.mp hp with rfl | hp
      · exact absurd hpk hq
      · exact ih hnd.2 h p hp hpk

theorem mergeDts_none_mem (ds : List (Option DatasetTimes))
    (times : List (List Char × DatasetTimes)) (hmem : none ∈ ds) :
    ∀ t, mergeDts times ds ≠ .ok t := by
  induction ds generalizing times with
  | nil => simp at hmem
  | cons a rest ih =>
    intro t h
    cases a with
    | none => simp [mergeDts] at h
    | some dt =>
      have h0 : none ∈ rest := by
        rcases List.mem_cons.mp hmem with h0 | h0
        · cases h0
        · exact h0
      simp only [mergeDts] at h
      split at h
      · split at h
        · exact ih times h0 t h
        · exact absurd h (by simp)
      · exact ih (times ++ [(dt.column, dt)]) h0 t h

theorem mergeDts_ok_props (ds : List DatasetTimes) (times t : List (List Char × DatasetTimes))
    (hnd : (times.map Prod.fst).Nodup)
    (h : mergeDts times (ds.map some) = .ok t) :
    List.Pairwise colAgree ds ∧ timesAgree times ds ∧
    (t.map Prod.fst).Nodup ∧
    (t.map Prod.fst).toFinset = (times.map Prod.fst).toFinset ∪
      ((ds.map (fun dt => dt.column)).toFinset) := by
  induction ds generalizing times with
  | nil =>
    obtain rfl : times = t := by simpa [mergeDts] using h
    refine ⟨by simp, ?_, hnd, by simp⟩
    intro dt hdt
    exact absurd hdt (List.not_mem_nil dt)
  | cons dt rest ih =>
    simp only [List.map_cons, mergeDts] at h
    split at h
    · rename_i dt0 hlk
      split at h
      · rename_i heq
        subst heq
        rcases ih times hnd h with ⟨hpw, hag, hnd2, hfin⟩
        have hmem : (dt0.column, dt0) ∈ times := lookupKV_some_mem _ _ _ hlk
        have hc : dt0.column ∈ (times.map Prod.fst).toFinset := by
          rw [List.mem_toFinset]
          exact List.mem_map_of_mem Prod.fst hmem
        refine ⟨List.pairwise_cons.mpr ⟨?_, hpw⟩, ?_, hnd2, ?_⟩
        · intro b hb hcol
          exact hag b hb (dt0.column, dt0) hmem hcol
        · intro b hb p hp hpk
          rcases List.mem_cons.mp hb with rfl | hb
          · exact lookupKV_unique _ _ _ hnd hlk p hp hpk
          · exact hag b hb p hp hpk
        · rw [hfin, List.map_cons, List.toFinset_cons, Finset.union_insert,
              Finset.insert_eq_self.mpr (Finset.mem_union_left _ hc)]
      · exact absurd h (by simp)
    · rename_i hlk
      have hnotin : dt.column ∉ times.map Prod.fst := by
        intro hx
        rcases List.mem_map.mp hx with ⟨p, hp, hpk⟩
        exact (lookupKV_none_iff _ _).mp hlk p hp hpk
      have hnd' : (((times ++ [(dt.column, dt)]).map Prod.fst)).Nodup := by
        rw [List.map_append]
        simp [List.nodup_append, hnd, hnotin]
      rcases ih (times ++ [(dt.column, dt)]) hnd' h with ⟨hpw, hag, hnd2, hfin⟩
      have hmem : (dt.column, dt) ∈ times ++ [(dt.column, dt)] := by simp
      refine ⟨List.pairwise_cons.mpr ⟨?_, hpw⟩, ?_, hnd2, ?_⟩
      · intro b hb hcol
        exact hag b hb (dt.column, dt) hmem hcol
      · intro b hb p hp hpk
        rcases List.mem_cons.mp hb with rfl | hb
        · exact absurd (by rw [← hpk]; exact List.mem_map_of_mem Prod.fst hp) hnotin
        · exact hag b hb p (by simp [hp]) hpk
      · rw [hfin]
        ext x
        simp only [List.map_append, List.map_cons, List.map_nil, List.toFinset_append,
          List.toFinset_cons, List.toFinset_nil, Finset.mem_union, Finset.mem_insert,
          Finset.not_mem_empty, or_false, List.mem_toFinset]
        tauto

theorem mergeDts_ok_exists (ds : List DatasetTimes) (times : List (List Char × DatasetTimes))
    (hnd : (times.map Prod.fst).Nodup)
    (hpw : List.Pairwise colAgree ds) (hag : timesAgree times ds) :
    ∃ t, mergeDts times (ds.map some) = .ok t := by
  induction ds generalizing times with
  | nil => exact ⟨times, rfl⟩
  | cons dt rest ih =>
    cases hlk : lookupKV dt.column times with
    | some dt0 =>
      have hmem := lookupKV_some_mem _ _ _ hlk
      have heq : dt0 = dt := hag dt (by simp) (dt.column, dt0) hmem rfl
      have hstep : mergeDts times ((dt :: rest).map some) = mergeDts times (rest.map some) := by
        simp [mergeDts, hlk, heq]
      rw [hstep]
      exact ih times hnd (List.pairwise_cons.mp hpw).2
        (fun b hb p hp hpk => hag b (by simp [hb]) p hp hpk)
    | none =>
      have hnotin : dt.column ∉ times.map Prod.fst := by
        intro hx
        rcases List.mem_map.mp hx with ⟨p, hp, hpk⟩
        exact (lookupKV_none_iff _ _).mp hlk p hp hpk
      have hnd' : (((times ++ [(dt.column, dt)]).map Prod.fst)).Nodup := by
        rw [List.map_append]
        simp [List.nodup_append, hnd, hnotin]
      have hstep : mergeDts times ((dt :: rest).map some) =
          mergeDts (times ++ [(dt.column, dt)]) (rest.map some) := by
        simp [mergeDts, hlk]
      rw [hstep]
      apply ih (times ++ [(dt.column, dt)]) hnd' (List.pairwise_cons.mp hpw).2
      intro b hb p hp hpk
      rcases List.mem_append.mp hp with hp | hp
      · exact hag b (by simp [hb]) p hp hpk
      · have hpe : p = (dt.column, dt) := by simpa using hp
        subst hpe
        exact (List.pairwise_cons.mp hpw).1 b hb hpk

theorem allSome_eq_map_some {α : Type} (l : List (Option α))
    (h : ∀ x ∈ l, x.isSome = true) : l = (l.filterMap id).map some := by
  induction l with
  | nil => rfl
  | cons a l ih =>
    cases a with
    | none => exact absurd (h none (by simp)) (by simp)
    | some b =>
      rw [List.filterMap_cons]
      simp only [id]
      rw [List.map_cons]
      rw [← ih (fun x hx => h x (by simp [hx]))]

theorem colAgree_symmetric : Symmetric colAgree := by
  intro a b hab hcol
  exact (hab hcol.symm).symm

theorem mergeDts_ok_length (ds : List DatasetTimes) (t : List (List Char × DatasetTimes))
    (h : mergeDts [] (ds.map some) = .ok t) :
    t.length = ((ds.map (fun dt => dt.column)).dedup).length := by
  rcases mergeDts_ok_props ds [] t (by simp) h with ⟨_, _, hnd2, hfin⟩
  have h1 : t.length = (t.map Prod.fst).length := (List.length_map _ _).symm
  rw [h1, ← List.toFinset_card_of_nodup hnd2, hfin]
  simp [List.card_toFinset]

/-! ## Claim C4: conflicting duplicates -/

/-- C4: in the overheader merge loop of `Dataset._parse_times_for_sheet`,
if two relevant headers parse to records with the same category key but
different contents, the loop raises a fatal error (never returns a map);
if every repeated occurrence of a category is value-identical, the loop
succeeds and merges the occurrences into a single mapping entry per
category (the result's keys are duplicate-free and cover exactly the
parsed categories). -/
theorem claim_c4 (publish : Date) (hs : List (Option (List Char))) :
    ((∃ dt1 dt2, dt1 ∈ dtsOf publish hs ∧ dt2 ∈ dtsOf publish hs ∧
        dt1.column = dt2.column ∧ dt1 ≠ dt2) →
      ∀ t, mergeTimes publish [] hs ≠ .ok t) ∧
    (((∀ x ∈ parsedOf publish hs, x.isSome = true) ∧
        List.Pairwise colAgree (dtsOf publish hs)) →
      ∃ t, mergeTimes publish [] hs = .ok t ∧ (t.map Prod.fst).Nodup ∧
        (t.map Prod.fst).toFinset =
          ((dtsOf publish hs).map (fun dt => dt.column)).toFinset) := by
  constructor
  · rintro ⟨dt1, dt2, h1, h2, hcol, hne⟩ t hok
    rw [mergeTimes_eq_mergeDts] at hok
    by_cases hall : ∀ x ∈ parsedOf publish hs, x.isSome = true
    · rw [allSome_eq_map_some _ hall] at hok
      have hpw := (mergeDts_ok_props _ _ _ (by simp) hok).1
      exact hne (hpw.forall colAgree_symmetric h1 h2 hne hcol)
    · push_neg at hall
      rcases hall with ⟨x, hx, hxs⟩
      have : x = none := by
        cases x
        · rfl
        · simp at hxs
      subst this
      exact mergeDts_none_mem _ _ hx t hok
  · rintro ⟨hall, hpw⟩
    rw [mergeTimes_eq_mergeDts, allSome_eq_map_some _ hall]
    have hag : timesAgree [] (dtsOf publish hs) := by
      intro b hb p hp
      exact absurd hp (List.not_mem_nil p)
    rcases mergeDts_ok_exists _ [] (by simp) hpw hag with ⟨t, ht⟩
    rcases mergeDts_ok_props _ [] t (by simp) ht with ⟨_, _, hnd2, hfin⟩
    refine ⟨t, ht, hnd2, ?_⟩
    rw [hfin]
    simp

theorem claim_c4_witness :
    mergeTimes pubW [] hsConf ≠ .ok [] ∧
    mergeTimes pubW [] hsDup =
      .ok [("last".data, ⟨"last".data, ⟨2021, 10, 30⟩, ⟨2021, 10, 30⟩⟩),
           ("previous".data, ⟨"previous".data, ⟨2021, 10, 23⟩, ⟨2021, 10, 23⟩⟩)] :=
  ⟨(claim_c4 pubW hsConf).1
      ⟨⟨"last".data, ⟨2021, 10, 30⟩, ⟨2021, 10, 30⟩⟩,
       ⟨"last".data, ⟨2021, 10, 2⟩, ⟨2021, 10, 2⟩⟩,
       by decide, by decide, by decide, by decide⟩ [],
   by rfl⟩

/-! ## Claim C3: exactly two categories -/

/-- C3 counterexample: the relevant headers of `hsConf` yield exactly two
distinct category keys ("last" and "previous"), yet
`Dataset._parse_times_for_sheet` raises a fatal error (the two "last"
occurrences carry different dates), so success is NOT equivalent to
"exactly two distinct category keys". -/
theorem claim_c3_counterexample :
    (yieldedCategories pubW hsConf).length = 2 ∧
    parse_times_for_sheet pubW [] hsConf = .error "Conflicting reference date".data :=
  ⟨by rfl, by rfl⟩

/-- C3 (amended): starting from an empty `times` map,
`Dataset._parse_times_for_sheet` returns a mapping iff every relevant
header parses under the fixed template, repeated occurrences of a category
are value-identical, and the relevant headers yield exactly two distinct
category keys; in every other case — including zero, one, or more than two
distinct categories — it raises a fatal error instead of returning. -/
theorem claim_c3_amended (publish : Date) (hs : List (Option (List Char))) :
    (∃ t, parse_times_for_sheet publish [] hs = .ok t) ↔
      ((∀ x ∈ parsedOf publish hs, x.isSome = true) ∧
       List.Pairwise colAgree (dtsOf publish hs) ∧
       (yieldedCategories publish hs).length = 2) := by
  constructor
  · rintro ⟨t, ht⟩
    unfold parse_times_for_sheet at ht
    split at ht
    · exact absurd ht (by simp)
    · rename_i t0 hm
      have hlen : t0.length = 2 := by
        by_cases h2 : t0.length = 2
        · exact h2
        · rw [if_neg h2] at ht
          exact absurd ht (by simp)
      rw [mergeTimes_eq_mergeDts] at hm
      have hall : ∀ x ∈ parsedOf publish hs, x.isSome = true := by
        by_contra hq
        push_neg at hq
        rcases hq with ⟨x, hx, hxs⟩
        have hxn : x = none := by
          cases x
          · rfl
          · simp at hxs
        subst hxn
        exact mergeDts_none_mem _ _ hx t0 hm
      rw [allSome_eq_map_some _ hall] at hm
      have hpw := (mergeDts_ok_props _ _ _ (by simp) hm).1
      have hL := mergeDts_ok_length _ _ hm
      refine ⟨hall, hpw, ?_⟩
      rw [yieldedCategories]
      unfold dtsOf
      rw [← hL]
      exact hlen
  · rintro ⟨hall, hpw, hlen⟩
    have hag : timesAgree [] (dtsOf publish hs) := by
      intro b hb p hp
      exact absurd hp (List.not_mem_nil p)
    rcases mergeDts_ok_exists (dtsOf publish hs) [] (by simp) hpw hag with ⟨t, ht⟩
    have hmt : mergeTimes publish [] hs = .ok t := by
      rw [mergeTimes_eq_mergeDts, allSome_eq_map_some _ hall]
      exact ht
    have hL := mergeDts_ok_length _ _ ht
    have hl2 : t.length = 2 := by
      rw [hL]
      simpa [yieldedCategories] using hlen
    exact ⟨t, by simp [parse_times_for_sheet, hmt, hl2]⟩

/-! ## Supporting lemmas: the sheet extractor -/

theorem lookupKV_setKV_self {κ α : Type} [DecidableEq κ] (k : κ) (v : α) (l : List (κ × α)) :
    lookupKV k (setKV k v l) = some v := by
  induction l with
  | nil => simp [setKV, lookupKV]
  | cons p l ih =>
    by_cases h : p.1 = k
    · simp [setKV, h, lookupKV]
    · simp [setKV, h, lookupKV, ih]

theorem lookupKV_setKV_ne {κ α : Type} [DecidableEq κ] (k k' : κ) (v : α) (l : List (κ × α))
    (h : k' ≠ k) : lookupKV k' (setKV k v l) = lookupKV k' l := by
  induction l with
  | nil =>
    simp only [setKV, lookupKV]
    rw [if_neg (fun hc => h (Eq.symm hc))]
  | cons p l ih =>
    by_cases hp : p.1 = k
    · subst hp
      simp only [setKV, if_pos rfl, lookupKV]
      rw [if_neg (fun hc => h (Eq.symm hc)), if_neg (fun hc => h (Eq.symm hc))]
    · simp only [setKV, hp, if_false, lookupKV, ih]

theorem applyRowFilter_columns {V : Type} (sheet : SheetConfig V) (df : DataFrame V) :
    (applyRowFilter sheet df).columns = df.columns := by
  unfold applyRowFilter
  split <;> rfl

theorem buildSelect_ok_filter (cols : List (List Char))
    (select : List (List Char × List Char × List Char)) (sig : List Char)
    (h : buildSelect cols = .ok select) :
    (select.filter (fun s => decide (0 ≤ strFind sig s.2.2))).map (fun s => s.2.1) =
      retainedFor cols sig := by
  induction cols generalizing select with
  | nil =>
    obtain rfl : select = ([] : List (List Char × List Char × List Char)) := by
      have : Except.ok ([] : List (List Char × List Char × List Char)) =
          (.ok select : Except (List Char) _) := h ▸ rfl
      injection this with h2
      exact h2.symm
    simp [retainedFor]
  | cons hcol rest ih =>
    by_cases hr : retain_header hcol = true
    · simp only [buildSelect, hr, if_true] at h
      split at h
      · exact absurd h (by simp)
      · rename_i cap hcap
        split at h
        · exact absurd h (by simp)
        · rename_i sel' hsel'
          obtain rfl : select = (cap, hcol, toLowerStr hcol) :: sel' := by
            injection h with h2
            exact h2.symm
          rw [retainedFor, List.filter_cons, List.filter_cons]
          by_cases hc : (0 ≤ strFind sig (toLowerStr hcol))
          · rw [if_pos (by simp [hc]), if_pos (by simp [hr, hc]), List.map_cons,
              ih sel' hsel']
            rfl
          · rw [if_neg (by simp [hc]), if_neg (by simp [hc]), ih sel' hsel']
            rfl
    · simp only [buildSelect, hr] at h
      rw [retainedFor, List.filter_cons]
      simp only [hr, Bool.false_and, if_false]
      exact ih select h

theorem mapE_ok_forall₂ {α β : Type} (f : α → Except (List Char) β) (l : List α)
    (bs : List β) (h : mapE f l = .ok bs) :
    List.Forall₂ (fun a b => f a = .ok b) l bs := by
  induction l generalizing bs with
  | nil =>
    obtain rfl : bs = [] := by
      have : Except.ok ([] : List β) = (.ok bs : Except (List Char) _) := h ▸ rfl
      injection this with h2
      exact h2.symm
    exact List.Forall₂.nil
  | cons a l ih =>
    simp only [mapE] at h
    split at h
    · exact absurd h (by simp)
    · rename_i b hb
      split at h
      · exact absurd h (by simp)
      · rename_i bs' hbs'
        obtain rfl : bs = b :: bs' := by
          injection h with h2
          exact h2.symm
        exact List.Forall₂.cons hb (ih bs' hbs')

theorem tableFor_vals {V : Type} [Inhabited V] (times : List (List Char × DatasetTimes))
    (sheet : SheetConfig V) (rows : List (DFRow V)) (sig : List Char)
    (si : List Char × List Char × List Char) (tbl : List (SignalRow V))
    (h : tableFor times sheet rows sig si = .ok tbl) :
    tbl.map (fun r => r.val) = rows.map (fun r => getCell r si.2.1) := by
  unfold tableFor at h
  split at h
  · exact absurd h (by simp)
  · split at h
    · exact absurd h (by simp)
    · rename_i ts hts
      obtain rfl : tbl = rows.map (fun r =>
          (⟨sheet.geo_id_apply (sheet.geo_id_select r), ts, getCell r si.2.1, none, none⟩ :
            SignalRow V)) := by
        injection h with h2
        exact h2.symm
      rw [List.map_map]
      rfl

theorem forall₂_map_eq {α β γ : Type} (R : α → β → Prop) (f : α → γ) (g : β → γ)
    (hfg : ∀ a b, R a b → g b = f a) (l : List α) (bs : List β)
    (h : List.Forall₂ R l bs) : bs.map g = l.map f := by
  induction h with
  | nil => rfl
  | cons hR _ ih => simp [hfg _ _ hR, ih]

theorem sigTables_ok_vals {V : Type} [Inhabited V] (times : List (List Char × DatasetTimes))
    (sheet : SheetConfig V) (rows : List (DFRow V))
    (select : List (List Char × List Char × List Char)) (sig : List Char)
    (tbl : List (SignalRow V)) (h : sigTables times sheet rows select sig = .ok tbl) :
    tbl.map (fun r => r.val) =
      ((select.filter (fun s => decide (0 ≤ strFind sig s.2.2))).map
        (fun si => rows.map (fun r => getCell r si.2.1))).flatten := by
  simp only [sigTables] at h
  split at h
  · exact absurd h (by simp)
  · split at h
    · exact absurd h (by simp)
    · rename_i ts hts
      obtain rfl : tbl = ts.flatten := by
        injection h with h2
        exact h2.symm
      rw [List.map_flatten]
      have h2 := mapE_ok_forall₂ _ _ _ hts
      rw [forall₂_map_eq _ _ _ (fun si t ht => tableFor_vals times sheet rows sig si t ht)
        _ _ h2]

theorem sigTables_empty_err {V : Type} [Inhabited V] (times : List (List Char × DatasetTimes))
    (sheet : SheetConfig V) (rows : List (DFRow V))
    (select : List (List Char × List Char × List Char)) (sig : List Char)
    (hemp : select.filter (fun s => decide (0 ≤ strFind sig s.2.2)) = []) :
    ∀ tbl, sigTables times sheet rows select sig ≠ .ok tbl := by
  intro tbl h
  simp only [sigTables, hemp] at h
  exact absurd h (by simp)

theorem sigLoop_stable {V : Type} [Inhabited V] (times : List (List Char × DatasetTimes))
    (sheet : SheetConfig V) (rows : List (DFRow V))
    (select : List (List Char × List Char × List Char)) (sigs : List (List Char))
    (dfs dfs' : DfsMap V) (h : sigLoop times sheet rows select sigs dfs = .ok dfs')
    (k : List Char × List Char) (hk : ∀ sig ∈ sigs, k ≠ (sheet.level, sig)) :
    lookupKV k dfs' = lookupKV k dfs := by
  induction sigs generalizing dfs with
  | nil =>
    obtain rfl : dfs' = dfs := by
      have : Except.ok dfs = (.ok dfs' : Except (List Char) _) := h ▸ rfl
      injection this with h2
      exact h2.symm
    rfl
  | cons sig0 rest ih =>
    simp only [sigLoop] at h
    split at h
    · exact absurd h (by simp)
    · rename_i tbl0 htbl0
      rw [ih _ h (fun sig hs => hk sig (by simp [hs]))]
      exact lookupKV_setKV_ne _ _ _ _ (hk sig0 (by simp))

theorem sigLoop_ok_lookup {V : Type} [Inhabited V] (times : List (List Char × DatasetTimes))
    (sheet : SheetConfig V) (rows : List (DFRow V))
    (select : List (List Char × List Char × List Char)) (sigs : List (List Char))
    (dfs dfs' : DfsMap V) (h : sigLoop times sheet rows select sigs dfs = .ok dfs') :
    ∀ sig ∈ sigs, ∃ tbl, sigTables times sheet rows select sig = .ok tbl ∧
      lookupKV (sheet.level, sig) dfs' = some tbl := by
  induction sigs generalizing dfs with
  | nil =>
    intro sig hsig
    exact absurd hsig (List.not_mem_nil sig)
  | cons sig0 rest ih =>
    intro sig hsig
    simp only [sigLoop] at h
    split at h
    · exact absurd h (by simp)
    · rename_i tbl0 htbl0
      rcases List.mem_cons.mp hsig with rfl | hsig'
      · by_cases hmem : sig ∈ rest
        · exact ih _ h sig hmem
        · refine ⟨tbl0, htbl0, ?_⟩
          have hk : ∀ s ∈ rest, (sheet.level, sig) ≠ (sheet.level, s) := by
            intro s hs hc
            injection hc with h1 h2
            exact hmem (by rw [h2]; exact hs)
          rw [sigLoop_stable _ _ _ _ _ _ _ h (sheet.level, sig) hk]
          exact lookupKV_setKV_self _ _ _
      · exact ih _ h sig hsig'

theorem divTotal_ok {V : Type} [Div V] [OfNat V 7] (level : List Char) (dfs dfs' : DfsMap V)
    (t : List (SignalRow V)) (hl : lookupKV (level, "total".data) dfs = some t)
    (h : divTotal level dfs = .ok dfs') :
    dfs' = setKV (level, "total".data) (t.map divRow) dfs := by
  unfold divTotal at h
  split at h
  · exact absurd h (by simp)
  · rename_i t0 hl0
    rw [hl] at hl0
    obtain rfl : t = t0 := by injection hl0
    injection h with h2
    exact h2.symm

/-! ## Claim C5: unit normalization of the "total" signal -/

/-- C5: when `Dataset._parse_sheet` succeeds, the extracted table for the
"total" signal carries, row for row, the raw (filtered) column values of
the selected headers divided by 7 — the division applied exactly once,
after concatenation over the matching headers — while the table of every
other configured signal carries the raw column values unscaled. -/
theorem claim_c5 {V : Type} [Inhabited V] [Div V] [OfNat V 7]
    (signals : List (List Char)) (times : List (List Char × DatasetTimes))
    (sheet : SheetConfig V) (df : DataFrame V) (dfs0 dfs' : DfsMap V)
    (hok : parse_sheet signals times sheet df dfs0 = .ok dfs')
    (htot : "total".data ∈ signals) :
    ((lookupKV (sheet.level, "total".data) dfs').map (fun t => valsOf t)) =
      some ((rawVals (applyRowFilter sheet df).rows
        (retainedFor df.columns "total".data)).map (fun v => v / 7)) ∧
    (∀ sig ∈ signals, sig ≠ "total".data →
      ((lookupKV (sheet.level, sig) dfs').map (fun t => valsOf t)) =
        some (rawVals (applyRowFilter sheet df).rows (retainedFor df.columns sig))) := by
  simp only [parse_sheet] at hok
  split at hok
  · exact absurd hok (by simp)
  · rename_i select hsel
    split at hok
    · exact absurd hok (by simp)
    · rename_i dfs1 hloop
      rw [applyRowFilter_columns] at hsel
      obtain ⟨tblT, htT, hlT⟩ := sigLoop_ok_lookup _ _ _ _ _ _ _ hloop "total".data htot
      have hdfs' := divTotal_ok _ _ _ _ hlT hok
      subst hdfs'
      have hvalsT : valsOf tblT = rawVals (applyRowFilter sheet df).rows
          (retainedFor df.columns "total".data) := by
        have h1 := sigTables_ok_vals _ _ _ _ _ _ htT
        simp only [valsOf, rawVals]
        rw [h1, ← buildSelect_ok_filter _ _ "total".data hsel, List.map_map]
        rfl
      constructor
      · rw [lookupKV_setKV_self]
        have hdv : valsOf (tblT.map divRow) = (valsOf tblT).map (fun v => v / 7) := by
          simp only [valsOf, List.map_map]
          rfl
        simp only [Option.map_some']
        rw [hdv, hvalsT]
      · intro sig hsig hne
        rw [lookupKV_setKV_ne _ _ _ _ (by intro hc; injection hc with h1 h2; exact hne h2)]
        obtain ⟨tbl, htb, hlb⟩ := sigLoop_ok_lookup _ _ _ _ _ _ _ hloop sig hsig
        rw [hlb]
        have h2 : valsOf tbl = rawVals (applyRowFilter sheet df).rows
            (retainedFor df.columns sig) := by
          have h1 := sigTables_ok_vals _ _ _ _ _ _ htb
          simp only [valsOf, rawVals]
          rw [h1, ← buildSelect_ok_filter _ _ sig hsel, List.map_map]
          rfl
        simp only [Option.map_some']
        rw [h2]

theorem claim_c5_witness :
    ((lookupKV ("state".data, "total".data) dfsOutW).map (fun t => valsOf t)) =
      some ((rawVals (applyRowFilter sheetW dfW).rows
        (retainedFor dfW.columns "total".data)).map (fun v => v / 7)) :=
  (claim_c5 SIGNALS timesW sheetW dfW [] dfsOutW (by rfl) (by decide)).1

/-! ## Claim C7: missing signal is fatal -/

/-- C7: for every configured signal, if no retained detail header's
lowercase form contains that signal's keyword, `Dataset._parse_sheet`
raises a fatal error — it never returns a table set (empty or default)
for that sheet. -/
theorem claim_c7 {V : Type} [Inhabited V] [Div V] [OfNat V 7]
    (signals : List (List Char)) (times : List (List Char × DatasetTimes))
    (sheet : SheetConfig V) (df : DataFrame V) (dfs0 : DfsMap V) (sig : List Char)
    (hsig : sig ∈ signals)
    (hnone : ∀ h ∈ df.columns, retain_header h = true →
      ¬containsSubstr sig (toLowerStr h)) :
    ∀ dfs', parse_sheet signals times sheet df dfs0 ≠ .ok dfs' := by
  intro dfs' hok
  simp only [parse_sheet] at hok
  split at hok
  · exact absurd hok (by simp)
  · rename_i select hsel
    split at hok
    · exact absurd hok (by simp)
    · rename_i dfs1 hloop
      rw [applyRowFilter_columns] at hsel
      obtain ⟨tbl, htb, _⟩ := sigLoop_ok_lookup _ _ _ _ _ _ _ hloop sig hsig
      have hret : retainedFor df.columns sig = [] := by
        rw [retainedFor, List.filter_eq_nil_iff]
        intro h hmem
        simp only [Bool.and_eq_true, decide_eq_true_eq, not_and]
        intro hr hc
        exact hnone h hmem hr ((strFind_nonneg_iff _ _).mp hc)
      have hemp : select.filter (fun s => decide (0 ≤ strFind sig s.2.2)) = [] := by
        have hmap := buildSelect_ok_filter _ _ sig hsel
        rw [hret] at hmap
        exact List.map_eq_nil_iff.mp hmap
      exact sigTables_empty_err _ _ _ _ _ hemp tbl htb

theorem claim_c7_witness :
    parse_sheet SIGNALS timesW sheetW dfW2 [] ≠ .ok [] :=
  claim_c7 SIGNALS timesW sheetW dfW2 [] "total".data (by decide)
    (fun h hmem hr => by
      rcases List.mem_singleton.mp hmem with rfl
      exact (strFind_neg_iff _ _).mp (by decide)) []
